import Mathlib

/-!
# Verification of the `wilf` S-expression evaluator core

Shallow embedding of `src/ast.rs` and `src/ast/env.rs`: the expression data
model, the environment chain, the quasiquote expander, the native-procedure
table, and the evaluator.  The evaluator itself (`Expr::eval`, `eval_forms`,
`expand_once`, `expand_all` from the crate's `expr.rs`, which is not part of
the sources at hand) is modelled from the spec, as marked on each such
definition; everything else is translated from the Rust sources.

Rust `f64` is embedded as `ℚ`: every numeric literal and operation appearing
in the verified properties is exact in both representations (division, which
no property exercises, differs at a zero divisor: `f64` yields `inf`, `ℚ`
yields `0`).
-/

namespace Wilf

/-- The `Type` enum of the expression module (expected types for
`TypeMismatch` errors). -/
inductive Ty where
  | symbolT | floatT | boolT | stringT | listT | fnT | lambdaT | macT
deriving DecidableEq, Repr

/-- Identifies one closure of the native-procedure table built by
`Env::default` in `src/ast/env.rs`; the closure bodies themselves are
embedded in `applyNative` below. -/
inductive NativeTag where
  | eqT | ltT | gtT | leT | geT
  | addT | subT | mulT | divT
  | notT | andT
  | mExpand1T | quoteT | quasiquoteT
  | defT | ifT | doT | fnDefT | macDefT | letT
  | dbgT | printT | printlnT | readlineT | timeT
deriving DecidableEq, Repr

/-- The `Expr` tagged union (spec §3 and its uses in `src/ast/env.rs`).
`float` carries `ℚ` in place of `f64`; `fn` carries the tag of a native
closure; `lambdaE` embeds `Expr::Lambda` and `macE` embeds the macro
variant, each carrying `body` then `bindings`. -/
inductive Expr where
  | symbol (name : String)
  | float (n : ℚ)
  | bool (b : Bool)
  | string (s : String)
  | list (l : List Expr)
  | fn (t : NativeTag)
  | lambdaE (body : Expr) (bindings : Expr)
  | macE (body : Expr) (bindings : Expr)

/-- The `LispError` enum of `src/ast.rs`. -/
inductive LispError where
  | typeMismatch (expected : Ty) (got : Expr)
  | symbolNotFound (name : String)
  | malformedList (forms : List Expr)
  | arity

/-- Outcome channel of running the interpreter: an ordinary `LispError`
result, or a Rust panic (out-of-bounds indexing, `.expect` failure, or
native-stack exhaustion, which spec §5 calls fatal and unrecoverable). -/
inductive RunErr where
  | lisp (e : LispError)
  | panicked (msg : String)

/-- The `FxHashMap<String, Expr>` of an environment frame, embedded as an
association list with unique keys (lookup takes the first hit; insert
overwrites in place or appends). -/
abbrev AList := List (String × Expr)

/-- `HashMap::get`. -/
def alGet : AList → String → Option Expr
  | [], _ => none
  | (k', v) :: rest, k => if k' = k then some v else alGet rest k

/-- `HashMap::insert`: overwrite the existing binding or add a new one. -/
def alInsert : AList → String → Expr → AList
  | [], k, v => [(k, v)]
  | (k', v') :: rest, k, v =>
      if k' = k then (k, v) :: rest else (k', v') :: alInsert rest k v

/-- The `Env` struct: the innermost frame's own table plus the optional
outer chain (`outer : Option<&Env>`). -/
inductive Env where
  | mk (data : AList) (outer : Option Env)

/-- The frame's own `data` table. -/
def Env.data : Env → AList
  | .mk d _ => d

/-- The `outer` link. -/
def Env.outer : Env → Option Env
  | .mk _ o => o

/-- `Env::get`: first the innermost frame's own table, then the outer
chain; `None` when absent everywhere. -/
def Env.get : Env → String → Option Expr
  | .mk data outer, k =>
    match alGet data k with
    | some exp => some exp
    | none =>
      match outer with
      | some outerEnv => outerEnv.get k
      | none => none

/-- `Env::with_outer`: a fresh empty frame chained onto `env`. -/
def Env.withOuter (env : Env) : Env := .mk [] (some env)

/-- Replace the innermost frame's table (models mutating `env.data` through
`&mut Env`; the outer chain is immutably borrowed and never changes). -/
def Env.setData : Env → AList → Env
  | .mk _ o, d => .mk d o

/-- The frame tables of the chain, innermost first. -/
def Env.frames : Env → List AList
  | .mk d none => [d]
  | .mk d (some o) => d :: o.frames

theorem sizeOf_list_append (as bs : List Expr) :
    sizeOf (as ++ bs) + 1 = sizeOf as + sizeOf bs := by
  induction as with
  | nil => simp only [List.nil_append, List.nil.sizeOf_spec]; omega
  | cons a t ih => simp only [List.cons_append, List.cons.sizeOf_spec]; omega

theorem sizeOf_list_reverse (l : List Expr) : sizeOf l.reverse = sizeOf l := by
  induction l with
  | nil => rfl
  | cons a t ih =>
      have h := sizeOf_list_append t.reverse [a]
      simp only [List.reverse_cons, List.cons.sizeOf_spec] at *
      simp at h ⊢
      omega

mutual

/-- One iteration of the `quasiquote` loop in `src/ast/env.rs`: the pushes
an element contributes to the `results` vector.  A non-list passes
through; a list whose first two elements are symbols is an
`unquote`/`splice-unquote` candidate (with a non-empty tail after the two
symbols it is an `Arity` error, for any pair of symbols); any other list
recurses through `quasiquote`.  `splice-unquote` looks only in the
innermost frame's own table (`env.data.get`), and pushes the bound list's
elements reversed (the final reversal restores their order); `unquote`
looks up the whole chain (`env.get`) and tolerates absence. -/
def qqElem : Expr → Env → Except LispError (List Expr)
  | .list (.symbol s :: .symbol k :: rest), env =>
    if rest.isEmpty then
      match s with
      | "unquote" =>
        match env.get k with
        | some data => .ok [data]
        | none => .ok [.list (.symbol s :: .symbol k :: rest)]
      | "splice-unquote" =>
        match alGet env.data k with
        | none => .error (.symbolNotFound k)
        | some (.list l2) => .ok l2.reverse
        | some _ => .ok []
      | _ => .ok [.list (.symbol s :: .symbol k :: rest)]
    else .error .arity
  | .list l, env =>
    match quasiquote l env with
    | .ok r => .ok [r]
    | .error e => .error e
  | notAList, _ => .ok [notAList]
termination_by e _ => 3 * sizeOf e + 1

/-- The loop of `quasiquote`: processes the already-reversed argument list
front to back, concatenating each element's pushes into the `results`
vector in push order (the caller reverses it once at the end). -/
def qqRev : List Expr → Env → Except LispError (List Expr)
  | [], _ => .ok []
  | element :: es, env =>
    match qqElem element env with
    | .error e => .error e
    | .ok pushed =>
      match qqRev es env with
      | .error e => .error e
      | .ok restResults => .ok (pushed ++ restResults)
termination_by l _ => 3 * sizeOf l
decreasing_by
  · simp only [List.cons.sizeOf_spec]; omega
  · simp only [List.cons.sizeOf_spec]; omega

/-- `quasiquote` from `src/ast/env.rs`: iterate the arguments in reverse,
pushing results, then reverse the accumulated vector into the output
list. -/
def quasiquote (args : List Expr) (env : Env) : Except LispError Expr :=
  match qqRev args.reverse env with
  | .ok results => .ok (.list results.reverse)
  | .error e => .error e
termination_by 3 * sizeOf args + 2
decreasing_by
  · simp only [sizeOf_list_reverse]; omega

end

/-- Expressions the quasiquote expander passes through unchanged: atoms;
two-element lists of two symbols whose head is neither `unquote` nor
`splice-unquote`; and other lists that do not start with two symbols
followed by further elements and whose members are all themselves plain.
(A list starting with two symbols followed by further elements is rejected
with `Arity`, so it is not plain.) -/
inductive Plain : Expr → Prop where
  | symbol (s : String) : Plain (.symbol s)
  | float (q : ℚ) : Plain (.float q)
  | bool (b : Bool) : Plain (.bool b)
  | string (s : String) : Plain (.string s)
  | fn (t : NativeTag) : Plain (.fn t)
  | lambdaE (b bs : Expr) : Plain (.lambdaE b bs)
  | macE (b bs : Expr) : Plain (.macE b bs)
  | twoSym (s k : String) : s ≠ "unquote" → s ≠ "splice-unquote" →
      Plain (.list [.symbol s, .symbol k])
  | listOther (l : List Expr) :
      (∀ (s k : String) (rest : List Expr), l ≠ .symbol s :: .symbol k :: rest) →
      (∀ e ∈ l, Plain e) → Plain (.list l)

/-- The interpreter's observable I/O: the remaining standard-input lines and
the values printed so far (`print`/`println` output and `readline` prompts;
formatting and the wall-clock line of `time` are not modelled). -/
structure IOState where
  stdin : List String
  stdout : List Expr

/-- `args.windows(2).all(|x| op(x[0], x[1]))` of the `tonicity!` macro:
does `op` hold between every adjacent pair?  Vacuously true for zero or one
elements. -/
def windowsAll (op : ℚ → ℚ → Bool) : List ℚ → Bool
  | a :: b :: rest => op a b && windowsAll op (b :: rest)
  | _ => true

/-- Modelled from the spec (§4.2/§4.4, `expr.rs` absent): pairwise-bind
parameter symbols to values in a fresh frame; a non-`Symbol` parameter is a
type mismatch.  Callers check the lengths beforehand. -/
def bindParams : List Expr → List Expr → AList → Except RunErr AList
  | [], _, acc => .ok acc
  | .symbol s :: ps, v :: vs, acc => bindParams ps vs (alInsert acc s v)
  | .symbol _ :: _, [], acc => .ok acc
  | p :: _, _, _ => .error (.lisp (.typeMismatch .symbolT p))

mutual

/-- Modelled from the spec (§4.2, `Expr::eval` in the absent `expr.rs`):
self-evaluating atoms, symbol lookup, empty-list rejection, and list
dispatch (evaluate the head; a native procedure gets the unevaluated
arguments, a lambda gets them evaluated eagerly in the calling scope; any
other head value is a malformed list).  The fuel argument bounds the
recursion depth standing in for the native call stack (spec §5): exhausting
it is the fatal stack overflow, not a language-level error. -/
def eval : Nat → Expr → Env → IOState → Except RunErr (Expr × Env × IOState)
  | 0, _, _, _ => .error (.panicked "stack overflow")
  | n + 1, expr, env, st =>
    match expr with
    | .symbol s =>
      match env.get s with
      | some v => .ok (v, env, st)
      | none => .error (.lisp (.symbolNotFound s))
    | .float q => .ok (.float q, env, st)
    | .bool b => .ok (.bool b, env, st)
    | .string s => .ok (.string s, env, st)
    | .fn t => .ok (.fn t, env, st)
    | .lambdaE b bs => .ok (.lambdaE b bs, env, st)
    | .macE b bs => .ok (.macE b bs, env, st)
    | .list [] => .error (.lisp (.malformedList []))
    | .list (head :: args) =>
      match eval n head env st with
      | .error e => .error e
      | .ok (.fn t, env1, st1) => applyNative n t args env1 st1
      | .ok (.lambdaE body bindings, env1, st1) =>
          applyLambda n body bindings args env1 st1
      | .ok (_, _, _) => .error (.lisp (.malformedList (head :: args)))
termination_by n _ _ _ => (n, 0, 0)

/-- Modelled from the spec (`eval_forms` in the absent `expr.rs`, used by
`do` and by argument evaluation): evaluate each form in order against the
same environment, collecting the results, stopping at the first error. -/
def evalForms : Nat → List Expr → Env → IOState →
    Except RunErr (List Expr × Env × IOState)
  | _, [], env, st => .ok ([], env, st)
  | n, f :: fs, env, st =>
    match eval n f env st with
    | .error e => .error e
    | .ok (v, env1, st1) =>
      match evalForms n fs env1 st1 with
      | .error e => .error e
      | .ok (vs, env2, st2) => .ok (v :: vs, env2, st2)
termination_by n fs _ _ => (n, 1, fs.length)

/-- `parse_nums` from `src/ast/env.rs`: evaluate each expression, demanding
a `Float`, stopping at the first error or mismatch. -/
def parseNums : Nat → List Expr → Env → IOState →
    Except RunErr (List ℚ × Env × IOState)
  | _, [], env, st => .ok ([], env, st)
  | n, e :: es, env, st =>
    match eval n e env st with
    | .ok (.float q, env1, st1) =>
      match parseNums n es env1 st1 with
      | .ok (qs, env2, st2) => .ok (q :: qs, env2, st2)
      | .error err => .error err
    | .ok (notANumber, _, _) => .error (.lisp (.typeMismatch .floatT notANumber))
    | .error e => .error e
termination_by n es _ _ => (n, 1, es.length)

/-- `parse_bools` from `src/ast/env.rs`. -/
def parseBools : Nat → List Expr → Env → IOState →
    Except RunErr (List Bool × Env × IOState)
  | _, [], env, st => .ok ([], env, st)
  | n, e :: es, env, st =>
    match eval n e env st with
    | .ok (.bool b, env1, st1) =>
      match parseBools n es env1 st1 with
      | .ok (bs, env2, st2) => .ok (b :: bs, env2, st2)
      | .error err => .error err
    | .ok (notABool, _, _) => .error (.lisp (.typeMismatch .boolT notABool))
    | .error e => .error e
termination_by n es _ _ => (n, 1, es.length)

/-- The `bindings.chunks(2)` loop of the `let` handler: type-check the
symbol, evaluate the value in the child scope built so far, bind it, and
continue; a trailing chunk of one panics on `pair[1]`. -/
def letBind : Nat → List Expr → Env → IOState → Except RunErr (Env × IOState)
  | _, [], env, st => .ok (env, st)
  | _, [_], _, _ => .error (.panicked "index out of bounds")
  | n, symExpr :: value :: rest, env, st =>
    match symExpr with
    | .symbol s =>
      match eval n value env st with
      | .error e => .error e
      | .ok (v, env1, st1) =>
          letBind n rest (env1.setData (alInsert env1.data s v)) st1
    | x => .error (.lisp (.typeMismatch .symbolT x))
termination_by n pairs _ _ => (n, 1, pairs.length)

/-- Modelled from the spec (§4.2, lambda application in the absent
`expr.rs`): evaluate the arguments eagerly in the calling environment, bind
the parameter symbols pairwise in a fresh child of the calling environment
(arity mismatch is an `Arity` error), and evaluate the body there. -/
def applyLambda : Nat → Expr → Expr → List Expr → Env → IOState →
    Except RunErr (Expr × Env × IOState)
  | n, body, bindings, args, env, st =>
    match evalForms n args env st with
    | .error e => .error e
    | .ok (vals, env1, st1) =>
      match bindings with
      | .list params =>
        if params.length ≠ vals.length then .error (.lisp .arity)
        else
          match bindParams params vals [] with
          | .error e => .error e
          | .ok frame =>
            match eval n body (Env.mk frame (some env1)) st1 with
            | .error e => .error e
            | .ok (v, _, st2) => .ok (v, env1, st2)
      | notAList => .error (.lisp (.typeMismatch .listT notAList))
termination_by n _ _ _ _ _ => (n, 2, 0)

/-- Modelled from the spec (§4.4, `expand_once` in the absent `expr.rs`):
when the head symbol of a list looks up (without evaluation) to a bound
macro, bind its parameters to the unevaluated remaining elements and
evaluate the macro body in that fresh scope; otherwise return the
expression unchanged. -/
def expandOnce : Nat → Expr → Env → IOState →
    Except RunErr (Expr × Env × IOState)
  | n, .list (.symbol s :: args), env, st =>
    match env.get s with
    | some (.macE body bindings) =>
      match bindings with
      | .list params =>
        if params.length ≠ args.length then .error (.lisp .arity)
        else
          match bindParams params args [] with
          | .error e => .error e
          | .ok frame =>
            match eval n body (Env.mk frame (some env)) st with
            | .error e => .error e
            | .ok (v, _, st1) => .ok (v, env, st1)
      | notAList => .error (.lisp (.typeMismatch .listT notAList))
    | _ => .ok (.list (.symbol s :: args), env, st)
  | _, e, env, st => .ok (e, env, st)
termination_by n _ _ _ => (n, 2, 0)

/-- The `tonicity!` macro of `src/ast/env.rs`: parse all arguments as
numbers and test `op` over adjacent pairs. -/
def tonicity : Nat → (ℚ → ℚ → Bool) → List Expr → Env → IOState →
    Except RunErr (Expr × Env × IOState)
  | n, op, args, env, st =>
    match parseNums n args env st with
    | .error e => .error e
    | .ok (ns, env1, st1) => .ok (.bool (windowsAll op ns), env1, st1)
termination_by n _ _ _ _ => (n, 2, 0)

/-- The closure bodies of the native-procedure table built by
`Env::default` in `src/ast/env.rs`, one arm per entry, in source order.
Each receives its unevaluated arguments and the caller's environment. -/
def applyNative : Nat → NativeTag → List Expr → Env → IOState →
    Except RunErr (Expr × Env × IOState)
  | n, .eqT, args, env, st => tonicity n (fun a b => decide (a = b)) args env st
  | n, .ltT, args, env, st => tonicity n (fun a b => decide (a < b)) args env st
  | n, .gtT, args, env, st => tonicity n (fun a b => decide (a > b)) args env st
  | n, .leT, args, env, st => tonicity n (fun a b => decide (a ≤ b)) args env st
  | n, .geT, args, env, st => tonicity n (fun a b => decide (a ≥ b)) args env st
  | n, .addT, args, env, st =>
    match parseNums n args env st with
    | .error e => .error e
    | .ok (ns, env1, st1) => .ok (.float ns.sum, env1, st1)
  | n, .subT, args, env, st =>
    match parseNums n args env st with
    | .error e => .error e
    | .ok ([], _, _) => .error (.panicked "index out of bounds")
    | .ok ([a], env1, st1) => .ok (.float (-a), env1, st1)
    | .ok (a :: rest, env1, st1) => .ok (.float (a - rest.sum), env1, st1)
  | n, .mulT, args, env, st =>
    match parseNums n args env st with
    | .error e => .error e
    | .ok (ns, env1, st1) => .ok (.float ns.prod, env1, st1)
  | n, .divT, args, env, st =>
    -- f64 division becomes ℚ division; they differ only at a zero divisor.
    match parseNums n args env st with
    | .error e => .error e
    | .ok ([], _, _) => .error (.panicked "index out of bounds")
    | .ok (a :: rest, env1, st1) => .ok (.float (a / rest.prod), env1, st1)
  | n, .notT, args, env, st =>
    match args with
    | [] => .error (.lisp .arity)
    | a :: _ =>
      match eval n a env st with
      | .ok (.bool false, env1, st1) => .ok (.bool true, env1, st1)
      | .ok (_, env1, st1) => .ok (.bool false, env1, st1)
      | .error e => .error e
  | n, .andT, args, env, st =>
    match parseBools n args env st with
    | .error e => .error e
    | .ok (bs, env1, st1) => .ok (.bool (!(bs.contains false)), env1, st1)
  | n, .mExpand1T, args, env, st =>
    match args with
    | [] => .error (.panicked "index out of bounds")
    | a :: _ => expandOnce n a env st
  | _, .quoteT, args, env, st =>
    match args with
    | [] => .error (.panicked "index out of bounds")
    | a :: _ => .ok (a, env, st)
  | _, .quasiquoteT, args, env, st =>
    match quasiquote args env with
    | .ok e => .ok (e, env, st)
    | .error e => .error (.lisp e)
  | n, .defT, args, env, st =>
    match args with
    | [] => .error (.panicked "index out of bounds")
    | first :: _ =>
      match first with
      | .symbol firstStr =>
        match args[1]? with
        | none => .error (.lisp .arity)
        | some secondForm =>
          if args.length > 2 then .error (.lisp .arity)
          else
            match eval n secondForm env st with
            | .error e => .error e
            | .ok (secondEval, env1, st1) =>
                .ok (first, env1.setData (alInsert env1.data firstStr secondEval), st1)
      | x => .error (.lisp (.typeMismatch .symbolT x))
  | n, .ifT, args, env, st =>
    if args.length > 3 then .error (.lisp .arity)
    else
      match args[0]? with
      | none => .error (.panicked "index out of bounds")
      | some test =>
        match eval n test env st with
        | .ok (.bool true, env1, st1) =>
          match args[1]? with
          | none => .error (.panicked "index out of bounds")
          | some conseq => eval n conseq env1 st1
        | .ok (.bool false, env1, st1) =>
          match args[2]? with
          | none => .error (.panicked "index out of bounds")
          | some alt => eval n alt env1 st1
        | .error e => .error e
        | .ok (notBool, _, _) => .error (.lisp (.typeMismatch .boolT notBool))
  | n, .doT, args, env, st =>
    -- `let rest = &args[..args.len()];` is the full argument list, so the
    -- final form is evaluated below a second time.
    match evalForms n args (Env.withOuter env) st with
    | .error e => .error e
    | .ok (_, childEnv, st1) =>
      match args.getLast? with
      | none => .error (.panicked "args list should not be empty")
      | some lastForm =>
        match eval n lastForm childEnv st1 with
        | .error e => .error e
        | .ok (v, _, st2) => .ok (v, env, st2)
  | _, .fnDefT, args, env, st =>
    match args with
    | [] => .error (.lisp .arity)
    | parameters :: _ =>
      match args[1]? with
      | none => .error (.lisp .arity)
      | some body =>
        if args.length > 2 then .error (.lisp .arity)
        else .ok (.lambdaE body parameters, env, st)
  | _, .macDefT, args, env, st =>
    match args with
    | [] => .error (.lisp .arity)
    | parameters :: _ =>
      match args[1]? with
      | none => .error (.lisp .arity)
      | some body =>
        if args.length > 2 then .error (.lisp .arity)
        else .ok (.macE body parameters, env, st)
  | n, .letT, args, env, st =>
    if args.length ≠ 2 then .error (.lisp .arity)
    else
      match args with
      | bindingsArg :: body :: _ =>
        match bindingsArg with
        | .list bindings =>
          match letBind n bindings (Env.withOuter env) st with
          | .error e => .error e
          | .ok (childEnv, st1) =>
            match eval n body childEnv st1 with
            | .error e => .error e
            | .ok (v, _, st2) => .ok (v, env, st2)
        | notAList => .error (.lisp (.typeMismatch .listT notAList))
      | _ => .error (.lisp .arity)
  | n, .dbgT, args, env, st =>
    -- `dbg!` writes to stderr, which is not modelled; the result (even an
    -- error) is returned as-is.
    if args.length ≠ 1 then .error (.lisp .arity)
    else
      match args with
      | a :: _ => eval n a env st
      | _ => .error (.lisp .arity)
  | n, .printT, args, env, st =>
    if args.length ≠ 1 then .error (.lisp .arity)
    else
      match args with
      | a :: _ =>
        match eval n a env st with
        | .error e => .error e
        | .ok (v, env1, st1) =>
            .ok (v, env1, { st1 with stdout := st1.stdout ++ [v] })
      | _ => .error (.lisp .arity)
  | n, .printlnT, args, env, st =>
    if args.length ≠ 1 then .error (.lisp .arity)
    else
      match args with
      | a :: _ =>
        match eval n a env st with
        | .error e => .error e
        | .ok (v, env1, st1) =>
            .ok (v, env1, { st1 with stdout := st1.stdout ++ [v] })
      | _ => .error (.lisp .arity)
  | _, .readlineT, args, env, st =>
    if args.length > 1 then .error (.lisp .arity)
    else
      let st1 :=
        match args[0]? with
        | some (.string s) => { st with stdout := st.stdout ++ [Expr.string s] }
        | _ => st
      let buf := (st1.stdin.headD "").trimRight
      .ok (.string buf, env, { st1 with stdin := st1.stdin.tail })
  | n, .timeT, args, env, st =>
    -- The wall-clock timing line written by `time` is not modelled.
    if args.length ≠ 1 then .error (.lisp .arity)
    else
      match args with
      | a :: _ => eval n a env st
      | _ => .error (.lisp .arity)
termination_by n _ _ _ _ => (n, 3, 0)

end

/-- Modelled from the spec (§4.4): does a macro head occur at this
position, i.e. would `expand_once` change the expression?  The same test
`expand_once` makes: a list whose head symbol looks up to a bound macro. -/
def isMacroCall (e : Expr) (env : Env) : Bool :=
  match e with
  | .list (.symbol s :: _) =>
    match env.get s with
    | some (.macE _ _) => true
    | _ => false
  | _ => false

mutual

/-- Modelled from the spec (§4.4, `expand_all` in the absent `expr.rs`):
repeatedly `expand_once` at the current position until no macro head
remains there (fixed point), then recurse into every sub-list.  The
fixed-point loop of a self-expanding macro does not terminate (spec §9), so
the fuel also bounds this loop; running out is the fatal condition of spec
§5, not a language-level error. -/
def expandAll : Nat → Expr → Env → IOState → Except RunErr (Expr × Env × IOState)
  | 0, _, _, _ => .error (.panicked "stack overflow")
  | n + 1, e, env, st =>
    if isMacroCall e env then
      match expandOnce (n + 1) e env st with
      | .error err => .error err
      | .ok (e1, env1, st1) => expandAll n e1 env1 st1
    else
      match e with
      | .list items =>
        match expandList n items env st with
        | .error err => .error err
        | .ok (items1, env1, st1) => .ok (.list items1, env1, st1)
      | other => .ok (other, env, st)
termination_by n _ _ _ => (n, 0, 0)

/-- `expand_all` over the elements of a sub-list, left to right. -/
def expandList : Nat → List Expr → Env → IOState →
    Except RunErr (List Expr × Env × IOState)
  | 0, _, _, _ => .error (.panicked "stack overflow")
  | _ + 1, [], env, st => .ok ([], env, st)
  | n + 1, e :: es, env, st =>
    match expandAll (n + 1) e env st with
    | .error err => .error err
    | .ok (e1, env1, st1) =>
      match expandList (n + 1) es env1 st1 with
      | .error err => .error err
      | .ok (es1, env2, st2) => .ok (e1 :: es1, env2, st2)
termination_by n es _ _ => (n, 1, es.length)

end

/-- One step of the `eval_script` loop in `src/ast.rs`:
`expr.expand_all(env)?.eval(env)`. -/
def expandEval (n : Nat) (e : Expr) (env : Env) (st : IOState) :
    Except RunErr (Expr × Env × IOState) :=
  match expandAll n e env st with
  | .error err => .error err
  | .ok (e1, env1, st1) => eval n e1 env1 st1

/-- `eval_script` from `src/ast.rs` after parsing (the parser is the
external collaborator of spec §1): expand and evaluate every form but the
last in order against the shared environment, discarding their values, then
expand and evaluate the final form for the result.  `&ast[..ast.len() - 1]`
underflows on an empty script, which the parser never produces. -/
def evalScript (n : Nat) : List Expr → Env → IOState →
    Except RunErr (Expr × Env × IOState)
  | [], _, _ => .error (.panicked "slice index out of range")
  | [f], env, st => expandEval n f env st
  | f :: rest, env, st =>
    match expandEval n f env st with
    | .error e => .error e
    | .ok (_, env1, st1) => evalScript n rest env1 st1

/-- The `Env::default` table of `src/ast/env.rs`, entries in source
order. -/
def defaultEnv : Env := .mk [
  ("=", .fn .eqT), ("<", .fn .ltT), (">", .fn .gtT),
  ("<=", .fn .leT), (">=", .fn .geT),
  ("+", .fn .addT), ("-", .fn .subT), ("*", .fn .mulT), ("/", .fn .divT),
  ("not", .fn .notT), ("and", .fn .andT),
  ("m-expand1", .fn .mExpand1T),
  ("quote", .fn .quoteT), ("quasiquote", .fn .quasiquoteT),
  ("def", .fn .defT), ("if", .fn .ifT), ("do", .fn .doT),
  ("fn", .fn .fnDefT), ("macro", .fn .macDefT), ("let", .fn .letT),
  ("dbg", .fn .dbgT), ("print", .fn .printT), ("println", .fn .printlnT),
  ("readline", .fn .readlineT), ("time", .fn .timeT)] none

/-- An empty I/O state, for concrete runs. -/
def st0 : IOState := ⟨[], []⟩

/-! ## Helper lemmas -/

/-- `Env::get` is exactly the first hit over the frame tables, innermost
first. -/
theorem env_get_frames (env : Env) (k : String) :
    env.get k = env.frames.findSome? (fun d => alGet d k) := by
  match env with
  | .mk d none =>
    cases h : alGet d k <;>
      simp [Env.get, Env.frames, List.findSome?_cons, h]
  | .mk d (some o) =>
    have ih := env_get_frames o k
    cases h : alGet d k <;>
      simp [Env.get, Env.frames, List.findSome?_cons, h, ih]

/-- Float literals parse back to their payloads, unchanged environment and
I/O. -/
theorem parseNums_map_float (n : Nat) (qs : List ℚ) (env : Env) (st : IOState) :
    parseNums (n + 1) (qs.map .float) env st = .ok (qs, env, st) := by
  induction qs with
  | nil => simp [parseNums]
  | cons q rest ih => simp [parseNums, eval, ih]

/-- Inversion for `Plain` on a list. -/
theorem plain_list_inv {l : List Expr} (hp : Plain (.list l)) :
    (∃ s k, l = [.symbol s, .symbol k] ∧ s ≠ "unquote" ∧ s ≠ "splice-unquote") ∨
    ((∀ (s k : String) (rest : List Expr), l ≠ .symbol s :: .symbol k :: rest) ∧
      ∀ e ∈ l, Plain e) := by
  cases hp with
  | twoSym s k h1 h2 => exact .inl ⟨s, k, rfl, h1, h2⟩
  | listOther _ hne hall => exact .inr ⟨hne, hall⟩

mutual

/-- A plain element contributes exactly itself to the `results` vector. -/
theorem qqElem_plain : ∀ (e : Expr) (env : Env), Plain e → qqElem e env = .ok [e]
  | .symbol _, _, _ => by simp [qqElem]
  | .float _, _, _ => by simp [qqElem]
  | .bool _, _, _ => by simp [qqElem]
  | .string _, _, _ => by simp [qqElem]
  | .fn _, _, _ => by simp [qqElem]
  | .lambdaE _ _, _, _ => by simp [qqElem]
  | .macE _ _, _, _ => by simp [qqElem]
  | .list l, env, hp => by
    rcases plain_list_inv hp with ⟨s, k, hl, h1, h2⟩ | ⟨hne, hall⟩
    · subst hl; simp [qqElem, h1, h2]
    · have hq : quasiquote l env = .ok (.list l) := quasiquote_plain l env hall
      simp [qqElem, hne, hq]
termination_by e _ _ => 3 * sizeOf e + 1
decreasing_by
  simp only [Expr.list.sizeOf_spec]; omega

/-- The loop keeps a list of plain elements intact. -/
theorem qqRev_plain : ∀ (l : List Expr) (env : Env),
    (∀ e ∈ l, Plain e) → qqRev l env = .ok l
  | [], _, _ => by rw [qqRev]
  | e :: es, env, h => by
    have he : qqElem e env = .ok [e] := qqElem_plain e env (h e (by simp))
    have hes : qqRev es env = .ok es :=
      qqRev_plain es env (fun x hx => h x (by simp [hx]))
    rw [qqRev, he, hes]
    rfl
termination_by l _ _ => 3 * sizeOf l
decreasing_by
  · simp only [List.cons.sizeOf_spec]; omega
  · simp only [List.cons.sizeOf_spec]; omega

/-- `quasiquote` returns a list of plain arguments unchanged, order
preserved. -/
theorem quasiquote_plain : ∀ (l : List Expr) (env : Env),
    (∀ e ∈ l, Plain e) → quasiquote l env = .ok (.list l)
  | l, env, h => by
    have hrev : qqRev l.reverse env = .ok l.reverse :=
      qqRev_plain l.reverse env (fun x hx => h x (List.mem_reverse.mp hx))
    rw [quasiquote, hrev]
    simp
termination_by l _ _ => 3 * sizeOf l + 2
decreasing_by
  simp only [sizeOf_list_reverse]; omega

end

/-! ## Claim theorems -/

/-- C8: `Env::get` searches the chain innermost-to-outermost and returns
the first binding found, yielding `none` only when no frame in the chain
binds the name; consequently `(let (s 1) (let (s 2) s))` evaluates to `2`,
and once the inner scope is left the outer binding is unchanged, as
`(let (s 1) (+ (let (s 2) s) s))` evaluating to `3` shows. -/
theorem c8_env_get_chain_shadowing :
    (∀ (env : Env) (k : String),
        env.get k = env.frames.findSome? (fun d => alGet d k)) ∧
    (∀ (env : Env) (k : String),
        env.get k = none ↔ ∀ d ∈ env.frames, alGet d k = none) ∧
    eval 10 (.list [.symbol "let", .list [.symbol "s", .float 1],
        .list [.symbol "let", .list [.symbol "s", .float 2], .symbol "s"]])
        defaultEnv st0
      = .ok (.float 2, defaultEnv, st0) ∧
    eval 10 (.list [.symbol "let", .list [.symbol "s", .float 1],
        .list [.symbol "+",
          .list [.symbol "let", .list [.symbol "s", .float 2], .symbol "s"],
          .symbol "s"]]) defaultEnv st0
      = .ok (.float 3, defaultEnv, st0) := by
  refine ⟨env_get_frames, fun env k => ?_, ?_, ?_⟩
  · rw [env_get_frames]; exact List.findSome?_eq_none_iff
  · simp [eval, applyNative, letBind, Env.get, alGet, defaultEnv,
      Env.withOuter, Env.data, Env.setData, alInsert]
  · simp [eval, applyNative, letBind, parseNums, Env.get, alGet, defaultEnv,
      Env.withOuter, Env.data, Env.setData, alInsert]
    norm_num

/-- C5: called with three arguments, `if` follows the evaluated test and
evaluates exactly one branch: a `true` test makes the result that of the
consequent alone, a `false` test that of the alternative alone (the untaken
branch is arbitrary and never evaluated, so an unbound symbol there raises
nothing, as the two concrete runs show); a test evaluating to a non-`Bool`
is a `TypeMismatch` expecting `Bool`; more than three arguments is an
`Arity` error. -/
theorem c5_if_branching :
    (∀ (n : Nat) (b c : Expr) (env : Env) (st : IOState),
        applyNative (n + 1) .ifT [.bool true, b, c] env st = eval (n + 1) b env st) ∧
    (∀ (n : Nat) (b c : Expr) (env : Env) (st : IOState),
        applyNative (n + 1) .ifT [.bool false, b, c] env st = eval (n + 1) c env st) ∧
    (∀ (n : Nat) (t b c : Expr) (env env1 : Env) (st st1 : IOState) (v : Expr),
        eval n t env st = .ok (v, env1, st1) →
        applyNative n .ifT [t, b, c] env st =
          match v with
          | .bool true => eval n b env1 st1
          | .bool false => eval n c env1 st1
          | notBool => .error (.lisp (.typeMismatch .boolT notBool))) ∧
    (∀ (n : Nat) (q : ℚ) (b c : Expr) (env : Env) (st : IOState),
        applyNative (n + 1) .ifT [.float q, b, c] env st =
          .error (.lisp (.typeMismatch .boolT (.float q)))) ∧
    (∀ (n : Nat) (a b c d : Expr) (rest : List Expr) (env : Env) (st : IOState),
        applyNative n .ifT (a :: b :: c :: d :: rest) env st = .error (.lisp .arity)) ∧
    eval 10 (.list [.symbol "if", .bool true, .float 1, .symbol "undefined"])
        defaultEnv st0 = .ok (.float 1, defaultEnv, st0) ∧
    eval 10 (.list [.symbol "if", .bool false, .symbol "undefined", .float 2])
        defaultEnv st0 = .ok (.float 2, defaultEnv, st0) := by
  refine ⟨?_, ?_, ?_, ?_, ?_, ?_, ?_⟩
  · intro n b c env st; simp [applyNative, eval]
  · intro n b c env st; simp [applyNative, eval]
  · intro n t b c env env1 st st1 v h
    cases v with
    | bool b1 => cases b1 <;> simp [applyNative, h]
    | _ => simp [applyNative, h]
  · intro n q b c env st; simp [applyNative, eval]
  · intro n a b c d rest env st
    simp [applyNative]
  · simp [eval, applyNative, Env.get, alGet, defaultEnv]
  · simp [eval, applyNative, Env.get, alGet, defaultEnv]

/-- Witness for C5: the evaluated-test hypothesis is satisfiable — with a
literal `true` test the handler's result is that of the consequent. -/
theorem c5_if_branching_witness :
    applyNative 1 .ifT [.bool true, .float 1, .float 2] defaultEnv st0
      = eval 1 (.float 1) defaultEnv st0 :=
  c5_if_branching.2.2.1 1 (.bool true) (.float 1) (.float 2) defaultEnv
    defaultEnv st0 st0 (.bool true) (by simp [eval])

/-- C1: the `do` handler slices `&args[..args.len()]` — the whole argument
list — before re-evaluating `args.last()`, so the final form runs twice:
`(do (print 5))` prints `5` twice, and `(do (print 1) (print 2))` prints
`1 2 2` (earlier forms once, the final form twice), all in one fresh child
scope whose mutations never reach the caller's environment. -/
theorem c1_do_evaluates_final_form_twice :
    eval 10 (.list [.symbol "do", .list [.symbol "print", .float 5]])
        defaultEnv st0
      = .ok (.float 5, defaultEnv, ⟨[], [.float 5, .float 5]⟩) ∧
    eval 10 (.list [.symbol "do", .list [.symbol "print", .float 1],
        .list [.symbol "print", .float 2]]) defaultEnv st0
      = .ok (.float 2, defaultEnv, ⟨[], [.float 1, .float 2, .float 2]⟩) := by
  constructor <;>
    simp [eval, applyNative, evalForms, Env.get, alGet, defaultEnv,
      Env.withOuter, Env.data, st0]

/-- C3: under-supplying `do`, `def` and `if` does not produce an `Arity`
error but panics: `(do)` dies on `args.last().expect(..)`, `(def)` on the
`&args[0]` index, and `(if true)` on the `args[1]` index taken for the
consequent. -/
theorem c3_short_arity_panics :
    eval 10 (.list [.symbol "do"]) defaultEnv st0
      = .error (.panicked "args list should not be empty") ∧
    eval 10 (.list [.symbol "def"]) defaultEnv st0
      = .error (.panicked "index out of bounds") ∧
    eval 10 (.list [.symbol "if", .bool true]) defaultEnv st0
      = .error (.panicked "index out of bounds") := by
  refine ⟨?_, ?_, ?_⟩ <;>
    simp [eval, applyNative, evalForms, Env.get, alGet, defaultEnv,
      Env.withOuter, Env.data]

/-- C4 counterexample: `not` applied to a non-`Bool` value does not fail
with a `TypeMismatch` expecting `Bool`; `(not 5)` succeeds with
`Bool(false)`. -/
theorem c4_counterexample_not_no_mismatch :
    eval 10 (.list [.symbol "not", .float 5]) defaultEnv st0
      = .ok (.bool false, defaultEnv, st0) := by
  simp [eval, applyNative, Env.get, alGet, defaultEnv]

/-- C4 amended: arithmetic and comparison primitives and `and` evaluate all
their arguments and return a `TypeMismatch` naming the required type when
any evaluated argument disagrees — `(+ 1 "a")` fails expecting the numeric
type and `(and true 5)` fails expecting `Bool` — but `not` evaluates only
its first argument and never reports a mismatch: it returns `Bool(true)`
exactly when that argument evaluates to `Bool(false)` (e.g. `(not false)`)
and `Bool(false)` on every other value. -/
theorem c4_amended_primitive_type_errors :
    eval 10 (.list [.symbol "+", .float 1, .string "a"]) defaultEnv st0
      = .error (.lisp (.typeMismatch .floatT (.string "a"))) ∧
    eval 10 (.list [.symbol "and", .bool true, .float 5]) defaultEnv st0
      = .error (.lisp (.typeMismatch .boolT (.float 5))) ∧
    (∀ (n : Nat) (q : ℚ) (rest : List Expr) (env : Env) (st : IOState),
        applyNative (n + 1) .notT (.float q :: rest) env st
          = .ok (.bool false, env, st)) ∧
    (∀ (n : Nat) (s : String) (rest : List Expr) (env : Env) (st : IOState),
        applyNative (n + 1) .notT (.string s :: rest) env st
          = .ok (.bool false, env, st)) ∧
    eval 10 (.list [.symbol "not", .bool false]) defaultEnv st0
      = .ok (.bool true, defaultEnv, st0) := by
  refine ⟨?_, ?_, ?_, ?_, ?_⟩
  · simp [eval, applyNative, parseNums, Env.get, alGet, defaultEnv]
  · simp [eval, applyNative, parseBools, Env.get, alGet, defaultEnv]
  · intro n q rest env st; simp [applyNative, eval]
  · intro n s rest env st; simp [applyNative, eval]
  · simp [eval, applyNative, Env.get, alGet, defaultEnv]

/-- C6: `(splice-unquote SYM)` consults only the innermost frame's own
table — when that table lacks `SYM` the result is `SymbolNotFound`, no
matter what outer frames bind — and a hit on a `List` splices its elements
in order: with `lst` bound to `(2 3)`, quasiquoting `(1 ,@lst 4)`'s
argument forms yields `(1 2 3 4)`. -/
theorem c6_splice_unquote_innermost :
    (∀ (env : Env) (k : String), alGet env.data k = none →
        quasiquote [.list [.symbol "splice-unquote", .symbol k]] env
          = .error (.symbolNotFound k)) ∧
    (∀ (env : Env) (k : String) (l : List Expr),
        alGet env.data k = some (.list l) →
        quasiquote [.list [.symbol "splice-unquote", .symbol k]] env
          = .ok (.list l)) ∧
    quasiquote [.float 1, .list [.symbol "splice-unquote", .symbol "lst"],
        .float 4] (.mk [("lst", .list [.float 2, .float 3])] none)
      = .ok (.list [.float 1, .float 2, .float 3, .float 4]) := by
  refine ⟨?_, ?_, ?_⟩
  · intro env k h
    rw [quasiquote]; simp [qqRev, qqElem, h]
  · intro env k l h
    rw [quasiquote]; simp [qqRev, qqElem, h]
  · have henv : Env.data (.mk [("lst", .list [.float 2, .float 3])] none)
        = [("lst", .list [.float 2, .float 3])] := rfl
    have h2 : qqElem (.list [.symbol "splice-unquote", .symbol "lst"])
        (.mk [("lst", .list [.float 2, .float 3])] none)
        = .ok [.float 3, .float 2] := by
      simp [qqElem, henv, alGet]
    have h4 : qqElem (.float 4)
        (.mk [("lst", .list [.float 2, .float 3])] none) = .ok [.float 4] := by
      simp [qqElem]
    have h1 : qqElem (.float 1)
        (.mk [("lst", .list [.float 2, .float 3])] none) = .ok [.float 1] := by
      simp [qqElem]
    have hr : qqRev [.float 4, .list [.symbol "splice-unquote", .symbol "lst"],
        .float 1] (.mk [("lst", .list [.float 2, .float 3])] none)
        = .ok [.float 4, .float 3, .float 2, .float 1] := by
      rw [qqRev, h4, qqRev, h2, qqRev, h1, qqRev]
      rfl
    rw [quasiquote]
    have hrev : ([Expr.float 1,
        .list [.symbol "splice-unquote", .symbol "lst"], .float 4]).reverse
        = [.float 4, .list [.symbol "splice-unquote", .symbol "lst"], .float 1] := by
      simp
    rw [hrev, hr]
    rfl

/-- Witness for C6: the hypotheses are satisfiable — an environment whose
own table lacks `lst` (though the outer frame binds it) errors, and one
binding `lst` to a list splices it. -/
theorem c6_splice_unquote_innermost_witness :
    quasiquote [.list [.symbol "splice-unquote", .symbol "lst"]]
        (.mk [] (some (.mk [("lst", .list [.float 9])] none)))
      = .error (.symbolNotFound "lst") ∧
    quasiquote [.list [.symbol "splice-unquote", .symbol "lst"]]
        (.mk [("lst", .list [.float 2, .float 3])] none)
      = .ok (.list [.float 2, .float 3]) :=
  ⟨c6_splice_unquote_innermost.1 _ "lst" (by simp [alGet, Env.data]),
   c6_splice_unquote_innermost.2.1 _ "lst" _ (by simp [alGet, Env.data])⟩

/-- C7: `(unquote SYM)` consults the whole environment chain: a bound `SYM`
is replaced by its value, and an unbound `SYM` leaves the literal
`(unquote SYM)` list in place with no error. -/
theorem c7_unquote_lookup_tolerates_absence :
    (∀ (env : Env) (k : String) (v : Expr), env.get k = some v →
        quasiquote [.list [.symbol "unquote", .symbol k]] env
          = .ok (.list [v])) ∧
    (∀ (env : Env) (k : String), env.get k = none →
        quasiquote [.list [.symbol "unquote", .symbol k]] env
          = .ok (.list [.list [.symbol "unquote", .symbol k]])) := by
  constructor
  · intro env k v h
    rw [quasiquote]; simp [qqRev, qqElem, h]
  · intro env k h
    rw [quasiquote]; simp [qqRev, qqElem, h]

/-- Witness for C7: a binding held only by the outer frame is still found
(chain lookup), and an absent binding leaves the literal form. -/
theorem c7_unquote_lookup_tolerates_absence_witness :
    quasiquote [.list [.symbol "unquote", .symbol "x"]]
        (.mk [] (some (.mk [("x", .float 7)] none)))
      = .ok (.list [.float 7]) ∧
    quasiquote [.list [.symbol "unquote", .symbol "x"]] (.mk [] none)
      = .ok (.list [.list [.symbol "unquote", .symbol "x"]]) :=
  ⟨c7_unquote_lookup_tolerates_absence.1 _ "x" _
      (by simp [Env.get, alGet]),
   c7_unquote_lookup_tolerates_absence.2 _ "x"
      (by simp [Env.get, alGet])⟩

/-- C2 counterexample: `(a b c)` — three symbols, containing no
`unquote`/`splice-unquote` form — is not returned unchanged: the expander
rejects any sub-list whose first two elements are symbols followed by more
elements with an `Arity` error. -/
theorem c2_counterexample_two_symbol_list_arity :
    quasiquote [.list [.symbol "a", .symbol "b", .symbol "c"]] (.mk [] none)
      = .error .arity := by
  rw [quasiquote]; simp [qqRev, qqElem]

/-- C2 amended: a list of plain arguments — no `unquote`/`splice-unquote`
forms and no sub-list whose first two elements are symbols followed by
further elements — is returned unchanged with element order preserved, and
other such sub-lists are recursed into elementwise; but a sub-list whose
first two elements are symbols followed by at least one further element is
rejected with an `Arity` error, whatever the two symbols are. -/
theorem c2_amended_plain_passthrough_and_arity :
    (∀ (env : Env) (args : List Expr), (∀ e ∈ args, Plain e) →
        quasiquote args env = .ok (.list args)) ∧
    (∀ (env : Env) (s k : String) (e : Expr) (rest : List Expr),
        quasiquote [.list (.symbol s :: .symbol k :: e :: rest)] env
          = .error .arity) := by
  constructor
  · intro env args h
    exact quasiquote_plain args env h
  · intro env s k e rest
    have ha : qqElem (.list (.symbol s :: .symbol k :: e :: rest)) env
        = .error .arity := by
      rw [qqElem.eq_def]; simp
    rw [quasiquote]
    simp only [List.reverse_cons, List.reverse_nil, List.nil_append]
    rw [qqRev, ha]

/-- Witness for C2 amended: a concrete plain list — a nested numeric list —
passes through unchanged. -/
theorem c2_amended_plain_passthrough_and_arity_witness :
    quasiquote [.list [.float 1, .float 2]] (.mk [] none)
      = .ok (.list [.list [.float 1, .float 2]]) :=
  c2_amended_plain_passthrough_and_arity.1 _ _ (by
    intro e he
    simp only [List.mem_singleton] at he
    subst he
    refine Plain.listOther _ (by intro s k rest h; simp at h) ?_
    intro e he
    simp only [List.mem_cons, List.not_mem_nil, or_false] at he
    rcases he with h | h <;> (subst h; exact Plain.float _))

/-- C9: `eval_script` expands and evaluates the forms in order against one
shared environment and returns the last form's value — `(def x 5)` then
`(+ x 1)` yields `6`, the binding made by the first form visible to the
second — and a failing form stops evaluation at once: whatever forms
follow an unresolvable symbol, the result is its `SymbolNotFound` error. -/
theorem c9_eval_script_sequencing :
    evalScript 10 [.list [.symbol "def", .symbol "x", .float 5],
        .list [.symbol "+", .symbol "x", .float 1]] defaultEnv st0
      = .ok (.float 6, Env.mk (defaultEnv.data ++ [("x", .float 5)]) none, st0) ∧
    (∀ (rest : List Expr) (st : IOState) (n : Nat),
        evalScript (n + 2) (.symbol "nope" :: rest) defaultEnv st
          = .error (.lisp (.symbolNotFound "nope"))) := by
  constructor
  · simp [evalScript, expandEval, expandAll, expandList, isMacroCall,
      expandOnce, eval, applyNative, parseNums, Env.get, alGet, defaultEnv,
      Env.setData, alInsert, Env.data]
    norm_num
  · intro rest st n
    have h : expandEval (n + 2) (.symbol "nope") defaultEnv st
        = .error (.lisp (.symbolNotFound "nope")) := by
      simp [expandEval, expandAll, isMacroCall, eval, Env.get, alGet, defaultEnv]
    cases rest with
    | nil => simp [evalScript, h]
    | cons r rs => simp [evalScript, h]

/-- C10: each comparison primitive evaluates all its arguments as floats
and returns `Bool(true)` exactly when its relation holds between every
adjacent pair of the evaluated values, vacuously so for zero or one
arguments; an argument evaluating to a non-float is a `TypeMismatch`
expecting `Float`. -/
theorem c10_comparisons_adjacent_pairs :
    (∀ (qs : List ℚ) (n : Nat) (st : IOState),
        eval (n + 2) (.list (.symbol "=" :: qs.map .float)) defaultEnv st
          = .ok (.bool (windowsAll (fun a b => decide (a = b)) qs), defaultEnv, st)) ∧
    (∀ (qs : List ℚ) (n : Nat) (st : IOState),
        eval (n + 2) (.list (.symbol "<" :: qs.map .float)) defaultEnv st
          = .ok (.bool (windowsAll (fun a b => decide (a < b)) qs), defaultEnv, st)) ∧
    (∀ (qs : List ℚ) (n : Nat) (st : IOState),
        eval (n + 2) (.list (.symbol ">" :: qs.map .float)) defaultEnv st
          = .ok (.bool (windowsAll (fun a b => decide (a > b)) qs), defaultEnv, st)) ∧
    (∀ (qs : List ℚ) (n : Nat) (st : IOState),
        eval (n + 2) (.list (.symbol "<=" :: qs.map .float)) defaultEnv st
          = .ok (.bool (windowsAll (fun a b => decide (a ≤ b)) qs), defaultEnv, st)) ∧
    (∀ (qs : List ℚ) (n : Nat) (st : IOState),
        eval (n + 2) (.list (.symbol ">=" :: qs.map .float)) defaultEnv st
          = .ok (.bool (windowsAll (fun a b => decide (a ≥ b)) qs), defaultEnv, st)) ∧
    (∀ (op : ℚ → ℚ → Bool) (qs : List ℚ),
        windowsAll op qs = true ↔ qs.Chain' (fun a b => op a b = true)) ∧
    eval 10 (.list [.symbol "<", .float 1, .bool true]) defaultEnv st0
      = .error (.lisp (.typeMismatch .floatT (.bool true))) := by
  refine ⟨?_, ?_, ?_, ?_, ?_, ?_, ?_⟩
  · intro qs n st
    have hl : Env.get defaultEnv "=" = some (.fn .eqT) := by
      simp [Env.get, alGet, defaultEnv, Env.data]
    have hp := parseNums_map_float n qs defaultEnv st
    simp [eval, hl, applyNative, tonicity, hp]
  · intro qs n st
    have hl : Env.get defaultEnv "<" = some (.fn .ltT) := by
      simp [Env.get, alGet, defaultEnv, Env.data]
    have hp := parseNums_map_float n qs defaultEnv st
    simp [eval, hl, applyNative, tonicity, hp]
  · intro qs n st
    have hl : Env.get defaultEnv ">" = some (.fn .gtT) := by
      simp [Env.get, alGet, defaultEnv, Env.data]
    have hp := parseNums_map_float n qs defaultEnv st
    simp [eval, hl, applyNative, tonicity, hp]
  · intro qs n st
    have hl : Env.get defaultEnv "<=" = some (.fn .leT) := by
      simp [Env.get, alGet, defaultEnv, Env.data]
    have hp := parseNums_map_float n qs defaultEnv st
    simp [eval, hl, applyNative, tonicity, hp]
  · intro qs n st
    have hl : Env.get defaultEnv ">=" = some (.fn .geT) := by
      simp [Env.get, alGet, defaultEnv, Env.data]
    have hp := parseNums_map_float n qs defaultEnv st
    simp [eval, hl, applyNative, tonicity, hp]
  · intro op qs
    induction qs with
    | nil => simp [windowsAll]
    | cons a t ih =>
      cases t with
      | nil => simp [windowsAll]
      | cons b r =>
        rw [windowsAll]
        simp only [Bool.and_eq_true, List.chain'_cons]
        rw [ih]
  · simp [eval, applyNative, parseNums, tonicity, Env.get, alGet, defaultEnv]

end Wilf
